import Mathlib

/-!
Verification of the trace-replay scheduler in `src/retrace/retrace_main.cpp`.

The development shallowly embeds the program:

* the snapshot/compare stage (`takeSnapshot`), the per-call pipeline
  (`retraceCall`) and the sequential replay loop (`replayList`, `mainLoop`)
  are embedded as pure functions producing event lists;
* the command-line scanner of `main` is embedded as `parseLoop`;
* the multi-threaded relay race (`RelayRace` / `RelayRunner`) is embedded as
  an interleaving transition system (`StepE` on `RaceState`) whose reachable
  states are analysed for the baton/mutual-exclusion invariants.

External collaborators (the trace parser, the image library, the per-API
handler registry, `dumpState`) are modelled as parameters (`Env`) or
explicit configuration fields, matching the interfaces the scheduler uses.
-/

/-- One parsed call of the trace (`trace::Call`): its call index `no`
(`unsigned` in the source), the recorded `thread_id`, and the two flags the
scheduler inspects (`CALL_FLAG_SWAP_RENDERTARGET`, `CALL_FLAG_END_FRAME`). -/
structure Call where
  no : Nat
  thread_id : Nat
  swapRendertarget : Bool
  endFrame : Bool
deriving DecidableEq, Repr

/-- The value of `call->no - 1` where `no` is a 32-bit `unsigned`:
subtraction wraps around at zero. -/
def usub1 (n : Nat) : Nat :=
  if n = 0 then 2 ^ 32 - 1 else n - 1

/-- Default of the global `static unsigned dumpStateCallNo = ~0;`:
`~0` converted to 32-bit `unsigned` is `2^32 - 1`. -/
def dumpStateCallNoDefault : Nat := 2 ^ 32 - 1

/-- Observable actions of one `takeSnapshot` invocation: the `Read` line,
PNM output to stdout, the `writePNG` call, the `Wrote` line and the
`Snapshot ... average precision` compare line (whose numeric metric is
computed by the external image library and not modelled). -/
inductive SnapOut where
  | readRef (filename : String)
  | pnmToStdout (comment : String)
  | wrotePNG (filename : String)
  | wroteLine (filename : String)
  | compareLine (callNo : Nat)
deriving DecidableEq, Repr

/-- External environment of the snapshot stage: `image::readPNG` as a map
from filename to an optional image, `getSnapshot()` as an optional current
framebuffer image, and the success of `writePNG`. -/
structure Env (Img : Type) where
  fs : String → Option Img
  framebuffer : Option Img
  writeOk : String → Bool

/-- Configuration consumed by `retraceCall`/`takeSnapshot`: the two call
sets (queried only through `contains`, hence modelled as predicates), the
two path bases, verbosity, the state-dump threshold and the result of
the external `dumpState(std::cout)`. -/
structure RCfg where
  snapshotFreq : Call → Bool
  compareFreq : Call → Bool
  comparePfx : Option String
  snapshotPfx : Option String
  verbosity : Int
  dumpStateCallNo : Nat
  dumpStateOk : Bool

/-- Zero-padded ten-digit rendering of a call index, as in
`os::String::format("%s%010u.png", ...)`. -/
def pad10 (n : Nat) : String :=
  let s := toString n
  String.mk (List.replicate (10 - s.length) '0') ++ s

/-- Snapshot/reference filename `<base><idx:010u>.png`. -/
def snapName (base : String) (no : Nat) : String :=
  base ++ pad10 no ++ ".png"

/-- Tail of `takeSnapshot` after the reference image has (or has not) been
read: capture the framebuffer, write the snapshot, emit the compare line. -/
def takeSnapshotRest {Img : Type} (cfg : RCfg) (env : Env Img) (call_no : Nat)
    (refRead : Bool) : List SnapOut :=
  match env.framebuffer with
  | none => []
  | some _ =>
    (match cfg.snapshotPfx with
     | none => []
     | some sp =>
       if sp = "-" then
         [SnapOut.pnmToStdout (toString call_no)]
       else
         SnapOut.wrotePNG (snapName sp call_no) ::
           (if env.writeOk (snapName sp call_no) && decide (0 ≤ cfg.verbosity) then
             [SnapOut.wroteLine (snapName sp call_no)]
           else []))
    ++ (if refRead then [SnapOut.compareLine call_no] else [])

/-- `takeSnapshot(call_no)`: when `comparePrefix` is set, first read the
reference PNG; a missing reference returns immediately (producing nothing). -/
def takeSnapshot {Img : Type} (cfg : RCfg) (env : Env Img) (call_no : Nat) :
    List SnapOut :=
  match cfg.comparePfx with
  | none => takeSnapshotRest cfg env call_no false
  | some cp =>
    match env.fs (snapName cp call_no) with
    | none => []
    | some _ =>
      (if 0 ≤ cfg.verbosity then [SnapOut.readRef (snapName cp call_no)] else [])
        ++ takeSnapshotRest cfg env call_no true

/-- The two process-wide counters `retrace::callNo` and `retrace::frameNo`. -/
structure GState where
  callNo : Nat
  frameNo : Nat
deriving DecidableEq, Repr

/-- `retrace::frameComplete`: increments `frameNo`. -/
def frameComplete (s : GState) : GState :=
  { s with frameNo := s.frameNo + 1 }

/-- Modelled from the spec: the per-API handlers invoked by
`retracer.retrace(*call)` live outside this repository; per §4.2/§8.4 of the
spec they call `retrace::frameComplete` exactly when the dispatched call
carries the `END_FRAME` flag. -/
def dispatchEffect (s : GState) (c : Call) : GState :=
  if c.endFrame then frameComplete s else s

/-- Observable events of `retraceCall`: a `takeSnapshot` invocation (with
its index and outputs) or the dispatch of a call. -/
inductive REvent where
  | snapshot (idx : Nat) (outs : List SnapOut)
  | dispatched (c : Call)
deriving DecidableEq, Repr

/-- `retraceCall(call)`: pre-dispatch snapshot for render-target-swapping
calls, `callNo = call->no`, dispatch, post-dispatch snapshot otherwise, and
the state-dump gate `call->no >= dumpStateCallNo && dumpState(...)` which
exits with status 0. Returns the updated counters, the events, and the exit
status if the gate fired. -/
def retraceCall {Img : Type} (cfg : RCfg) (env : Env Img) (s : GState)
    (c : Call) : GState × List REvent × Option Nat :=
  let doSnapshot := cfg.snapshotFreq c || cfg.compareFreq c
  let pre : List REvent :=
    if doSnapshot && c.swapRendertarget then
      if c.endFrame then
        [REvent.snapshot c.no (takeSnapshot cfg env c.no)]
      else
        [REvent.snapshot (usub1 c.no) (takeSnapshot cfg env (usub1 c.no))]
    else []
  let s1 : GState := { s with callNo := c.no }
  let s2 := dispatchEffect s1 c
  let post : List REvent :=
    if doSnapshot && !c.swapRendertarget then
      [REvent.snapshot c.no (takeSnapshot cfg env c.no)]
    else []
  let ex : Option Nat :=
    if decide (cfg.dumpStateCallNo ≤ c.no) && cfg.dumpStateOk then some 0 else none
  (s2, pre ++ [REvent.dispatched c] ++ post, ex)

/-- Calls dispatched in an event list. -/
def dispatchedCalls (evs : List REvent) : List Call :=
  evs.filterMap fun e => match e with
    | REvent.dispatched c => some c
    | _ => none

/-- Whether an event is a dispatch. -/
def isDispatchEv (e : REvent) : Bool :=
  match e with
  | REvent.dispatched _ => true
  | _ => false

/-- Indices of the `takeSnapshot` invocations in an event list. -/
def snapMarks (evs : List REvent) : List Nat :=
  evs.filterMap fun e => match e with
    | REvent.snapshot i _ => some i
    | _ => none

/-- Snapshot invocations before the dispatch. -/
def snapsBefore (evs : List REvent) : List Nat :=
  snapMarks (evs.takeWhile fun e => !isDispatchEv e)

/-- Snapshot invocations after the dispatch. -/
def snapsAfter (evs : List REvent) : List Nat :=
  snapMarks ((evs.dropWhile fun e => !isDispatchEv e).drop 1)

/-- Sequential replay of a list of calls through `retraceCall`; the relay
race dispatches the stream in exactly this order (proved below on the
transition system). Stops when the state-dump gate exits. -/
def replayList {Img : Type} (cfg : RCfg) (env : Env Img) :
    GState → List Call → GState × List REvent × Option Nat
  | s, [] => (s, [], none)
  | s, c :: rest =>
    let r := retraceCall cfg env s c
    match r.2.2 with
    | some code => (r.1, r.2.1, some code)
    | none =>
      let r2 := replayList cfg env r.1 rest
      (r2.1, r.2.1 ++ r2.2.1, r2.2.2)

/-- `retrace::mainLoop` for one trace file: reset `frameNo = 0` (and only
`frameNo`), then run the race over the file's calls. -/
def mainLoop {Img : Type} (cfg : RCfg) (env : Env Img) (s : GState)
    (tr : List Call) : GState × List REvent × Option Nat :=
  replayList cfg env { callNo := s.callNo, frameNo := 0 } tr

/-- Symbolic `trace::CallSet` value as `main` constructs it: the
default-constructed empty set, `CallSet(trace::FREQUENCY_FRAME)`, or
`CallSet(argv[++i])` built from option text (the textual parser is
external; `main` only tests `empty()` on these values). A missing
`argv[++i]` (past the end of `argv`) is the null pointer. -/
inductive CallSetExpr where
  | empty
  | freqFrame
  | fromText (s : Option String)
deriving DecidableEq, Repr

/-- The mutable option state of `main` (the file-static and
`namespace retrace` globals that the option loop assigns). -/
structure MainCfg where
  debug : Bool := true
  verbosity : Int := 0
  dumpingState : Bool := false
  doubleBuffer : Bool := true
  coreProfile : Bool := false
  profiling : Bool := false
  profilingGpuTimes : Bool := false
  profilingCpuTimes : Bool := false
  profilingPixelsDrawn : Bool := false
  waitOnFinish : Bool := false
  comparePfx : Option String := none
  snapshotPfx : Option String := none
  snapshotFrequency : CallSetExpr := CallSetExpr.empty
  compareFrequency : CallSetExpr := CallSetExpr.empty
  dumpStateCallNo : Nat := dumpStateCallNoDefault
deriving DecidableEq, Repr

/-- The global option state at program start. -/
def defaultMainCfg : MainCfg := {}

/-- Accumulate decimal digits, as the digit loop of `atoi` does. -/
def digitsVal : List Char → Nat → Nat
  | c :: cs, acc =>
    if c.isDigit then digitsVal cs (acc * 10 + (c.toNat - 48)) else acc
  | [], acc => acc

/-- Modelled from the spec: `-D CALLNO` parses its argument with the C
library's `atoi` (outside this repository): skip leading whitespace, an
optional sign, then decimal digits. `atoi(NULL)` (missing argument) is
undefined behaviour in C; it is modelled as 0 here. -/
def atoiI (v : Option String) : Int :=
  match v with
  | none => 0
  | some s =>
    match s.data.dropWhile (fun c =>
        c = ' ' || c = '\t' || c = '\n' || c = '\x0b' || c = '\x0c' || c = '\r') with
    | '-' :: cs => - (digitsVal cs 0 : Int)
    | '+' :: cs => (digitsVal cs 0 : Int)
    | cs => (digitsVal cs 0 : Int)

/-- Conversion of the `int` result of `atoi` to the `unsigned`
`dumpStateCallNo` (reduction modulo `2^32`). -/
def toUnsigned32 (z : Int) : Nat := (z % (2 ^ 32 : Int)).toNat

/-- Effect of `-c PREFIX` (argument may be absent at the end of `argv`). -/
def applyOptC (cfg : MainCfg) (v : Option String) : MainCfg :=
  let cfg1 := { cfg with comparePfx := v }
  if cfg1.compareFrequency = CallSetExpr.empty then
    { cfg1 with compareFrequency := CallSetExpr.freqFrame }
  else cfg1

/-- Effect of `-C CALLSET`. -/
def applyOptCap (cfg : MainCfg) (v : Option String) : MainCfg :=
  let cfg1 := { cfg with compareFrequency := CallSetExpr.fromText v }
  if cfg1.comparePfx = none then { cfg1 with comparePfx := some "" } else cfg1

/-- Effect of `-D CALLNO`. -/
def applyOptD (cfg : MainCfg) (v : Option String) : MainCfg :=
  { cfg with
    dumpStateCallNo := toUnsigned32 (atoiI v)
    dumpingState := true
    verbosity := -2 }

/-- Effect of `-s PREFIX`; the sentinel `-` additionally puts stdout in
binary mode and sets verbosity to −2. -/
def applyOptS (cfg : MainCfg) (v : Option String) : MainCfg :=
  let cfg1 := { cfg with snapshotPfx := v }
  let cfg2 :=
    if cfg1.snapshotFrequency = CallSetExpr.empty then
      { cfg1 with snapshotFrequency := CallSetExpr.freqFrame }
    else cfg1
  if v = some "-" then { cfg2 with verbosity := -2 } else cfg2

/-- Effect of `-S CALLSET`. -/
def applyOptCapS (cfg : MainCfg) (v : Option String) : MainCfg :=
  let cfg1 := { cfg with snapshotFrequency := CallSetExpr.fromText v }
  if cfg1.snapshotPfx = none then { cfg1 with snapshotPfx := some "" } else cfg1

/-- Effect of the `arg[1] == 'p'` profiling branch: any option whose second
character is `p` (and that matched no exact option above) lands here; only
the three exact spellings additionally switch on their specific counter. -/
def applyOptP (cfg : MainCfg) (arg : String) : MainCfg :=
  let cfg1 := { cfg with debug := false, profiling := true, verbosity := -1 }
  if arg = "-pcpu" then { cfg1 with profilingCpuTimes := true }
  else if arg = "-pgpu" then { cfg1 with profilingGpuTimes := true }
  else if arg = "-ppd" then { cfg1 with profilingPixelsDrawn := true }
  else cfg1

/-- Result of the option loop of `main`: `--help` prints usage and returns
0; an unknown option prints an error and returns 1; otherwise the loop
breaks out (or runs out of arguments) leaving the final option state and
the remaining arguments, which `main` treats as trace files. -/
inductive ParseOutcome where
  | exitOk
  | exitErr (arg : String)
  | run (cfg : MainCfg) (traces : List String)
deriving DecidableEq, Repr

/-- The option loop of `main` (`for (i = 1; i < argc; ++i)` over
`argv[i]`): the `arg[0] != '-'` and `"--"` breaks, the exact-match chain,
the `arg[1] == 'p'` catch-all and the unknown-option error, in source
order. Options taking a value read `argv[++i]`; when that runs past the
end, the value is the null pointer (`none`) and the loop then terminates. -/
def parseLoop (cfg : MainCfg) : List String → ParseOutcome
  | [] => ParseOutcome.run cfg []
  | arg :: rest =>
    if arg.data.head? = some '-' then
      if arg = "--" then ParseOutcome.run cfg (arg :: rest)
      else if arg = "-b" then
        parseLoop { cfg with debug := false, verbosity := -1 } rest
      else if arg = "-c" then
        match rest with
        | [] => ParseOutcome.run (applyOptC cfg none) []
        | v :: rest' => parseLoop (applyOptC cfg (some v)) rest'
      else if arg = "-C" then
        match rest with
        | [] => ParseOutcome.run (applyOptCap cfg none) []
        | v :: rest' => parseLoop (applyOptCap cfg (some v)) rest'
      else if arg = "-D" then
        match rest with
        | [] => ParseOutcome.run (applyOptD cfg none) []
        | v :: rest' => parseLoop (applyOptD cfg (some v)) rest'
      else if arg = "-core" then parseLoop { cfg with coreProfile := true } rest
      else if arg = "-db" then parseLoop { cfg with doubleBuffer := true } rest
      else if arg = "-sb" then parseLoop { cfg with doubleBuffer := false } rest
      else if arg = "--help" then ParseOutcome.exitOk
      else if arg = "-s" then
        match rest with
        | [] => ParseOutcome.run (applyOptS cfg none) []
        | v :: rest' => parseLoop (applyOptS cfg (some v)) rest'
      else if arg = "-S" then
        match rest with
        | [] => ParseOutcome.run (applyOptCapS cfg none) []
        | v :: rest' => parseLoop (applyOptCapS cfg (some v)) rest'
      else if arg = "-v" then parseLoop { cfg with verbosity := cfg.verbosity + 1 } rest
      else if arg = "-w" then parseLoop { cfg with waitOnFinish := true } rest
      else if arg.data.get? 1 = some 'p' then parseLoop (applyOptP cfg arg) rest
      else ParseOutcome.exitErr arg
    else ParseOutcome.run cfg (arg :: rest)

/-- The option strings documented by `usage()` (and `--`/`--help`), as
enumerated by the claim under scrutiny. -/
def documentedOptions : List String :=
  ["-b", "-pcpu", "-pgpu", "-ppd", "-c", "-C", "-core", "-db", "-sb",
   "-s", "-S", "-v", "-D", "-w", "--", "--help"]

/-- Control point of one `RelayRunner`: parked in the `runRace` wait loop
(`waiting`), inside `retraceCall` for a call — the region containing
`takeSnapshot` and `retracer.retrace` — (`working`), inside
`parser.parse_call()` (`parsing`), or exited (`done`). -/
inductive Phase where
  | waiting
  | working (c : Call)
  | parsing
  | done
deriving DecidableEq, Repr

/-- Global state of `RelayRace`: the unread rest of the trace stream, and
per leg the single-slot `baton`, the `finished` flag and the control point.
Runners are indexed by their leg (= recorded thread id); legs whose runner
was never constructed sit harmlessly at `waiting` with an empty baton. -/
structure RaceState where
  stream : List Call
  baton : Nat → Option Call
  finished : Nat → Bool
  phase : Nat → Phase

/-- Dispatch events: `beginD c` when a worker enters `retraceCall(c)`,
`endD c` when it leaves it. -/
inductive Ev where
  | beginD (c : Call)
  | endD (c : Call)
deriving DecidableEq, Repr

/-- State after `RelayRace::run` has pulled the first call and placed it as
a baton (directly for leg 0, via `passBaton` otherwise). An empty trace
returns immediately (`/* Nothing to do */`). -/
def initRace (tr : List Call) : RaceState :=
  match tr with
  | [] =>
    { stream := []
      baton := fun _ => none
      finished := fun _ => true
      phase := fun _ => Phase.done }
  | c :: rest =>
    { stream := rest
      baton := Function.update (fun _ => none) c.thread_id (some c)
      finished := fun _ => false
      phase := fun _ => Phase.waiting }

/-- Interleaving small-step semantics of the relay race, labelled by the
stepping leg and the dispatch events emitted.  Steps interleave at the
synchronisation points of the source; `stopRunners` (which only raises
`finished` flags) is folded into the lead runner's exit step. -/
inductive StepE : Nat → List Ev → RaceState → RaceState → Prop where
  /-- The wait loop of `runRace` exits with a baton: take it, empty the
  slot, and start `runLeg` → `retraceCall` on it. -/
  | takeBaton (t : Nat) (c : Call) (s : RaceState)
      (hw : s.phase t = Phase.waiting) (hf : s.finished t = false)
      (hb : s.baton t = some c) :
      StepE t [Ev.beginD c] s
        { s with
          baton := Function.update s.baton t none
          phase := Function.update s.phase t (Phase.working c) }
  /-- The wait loop of the lead runner exits on `finished`: it breaks,
  runs `stopRunners` (raising every runner's `finished`) and returns. -/
  | wakeFinishLead (s : RaceState)
      (hw : s.phase 0 = Phase.waiting) (hf : s.finished 0 = true) :
      StepE 0 [] s
        { s with
          finished := fun _ => true
          phase := Function.update s.phase 0 Phase.done }
  /-- The wait loop of a non-lead runner exits on `finished`: its thread
  returns. -/
  | wakeFinish (t : Nat) (s : RaceState)
      (ht : t ≠ 0) (hw : s.phase t = Phase.waiting) (hf : s.finished t = true) :
      StepE t [] s { s with phase := Function.update s.phase t Phase.done }
  /-- `retraceCall(call)` returns; `runLeg` moves on to `parse_call()`. -/
  | dispatchDone (t : Nat) (c : Call) (s : RaceState)
      (hw : s.phase t = Phase.working c) :
      StepE t [Ev.endD c] s { s with phase := Function.update s.phase t Phase.parsing }
  /-- `parse_call` yields a call of the same leg: the `do`/`while` loop of
  `runLeg` continues with it. -/
  | parseSame (t : Nat) (h : Call) (rest : List Call) (s : RaceState)
      (hw : s.phase t = Phase.parsing) (hs : s.stream = h :: rest)
      (ht : h.thread_id = t) :
      StepE t [Ev.beginD h] s
        { s with stream := rest, phase := Function.update s.phase t (Phase.working h) }
  /-- `parse_call` yields a foreign call: `flushRendering()`, then
  `passBaton` stores it into that leg's baton slot and wakes it; the
  current runner returns to its wait loop. -/
  | parseForeign (t : Nat) (h : Call) (rest : List Call) (s : RaceState)
      (hw : s.phase t = Phase.parsing) (hs : s.stream = h :: rest)
      (ht : h.thread_id ≠ t) :
      StepE t [] s
        { s with
          stream := rest
          baton := Function.update s.baton h.thread_id (some h)
          phase := Function.update s.phase t Phase.waiting }
  /-- `parse_call` hits end-of-stream: the finish line. A non-lead runner
  notifies the lead via `finishLine`/`finishRace`; the lead sets its own
  `finished`. Either way `finished 0` rises and the runner returns to its
  wait loop. -/
  | parseEos (t : Nat) (s : RaceState)
      (hw : s.phase t = Phase.parsing) (hs : s.stream = []) :
      StepE t [] s
        { s with
          finished := Function.update s.finished 0 true
          phase := Function.update s.phase t Phase.waiting }

/-- Reachability from a start state, accumulating emitted dispatch events. -/
inductive ReachT (s0 : RaceState) : List Ev → RaceState → Prop where
  | refl : ReachT s0 [] s0
  | step {evs : List Ev} {s : RaceState} {t : Nat} {e : List Ev} {s' : RaceState} :
      ReachT s0 evs s → StepE t e s s' → ReachT s0 (evs ++ e) s'

/-- A leg holds the program's attention: it is inside `retraceCall`
(dispatch / `takeSnapshot`), inside `parse_call`, or its baton slot is
occupied. -/
def Occupied (s : RaceState) (t : Nat) : Prop :=
  (∃ c, s.phase t = Phase.working c) ∨ s.phase t = Phase.parsing ∨ s.baton t ≠ none

/-- At most one leg is occupied. -/
def ExclusiveOccupancy (s : RaceState) : Prop :=
  ∀ t₁ t₂, Occupied s t₁ → Occupied s t₂ → t₁ = t₂

/-- Single-producer/single-consumer discipline of the baton slots: a step
that fills leg `u`'s slot is taken by another leg (the previous active
worker, acting through `passBaton`/`receiveBaton`), and a step that empties
it is taken by leg `u` itself. -/
def BatonHandoffDiscipline (s : RaceState) : Prop :=
  ∀ t e s', StepE t e s s' → ∀ u c,
    (s.baton u = none → s'.baton u = some c → t ≠ u) ∧
    (s.baton u = some c → s'.baton u = none → t = u)

/-- The begin/end dispatch events of a list of calls, in order. -/
def evOf : List Call → List Ev
  | [] => []
  | c :: l => Ev.beginD c :: Ev.endD c :: evOf l

/-- Reachable-state shape 1: the next call of the trace sits in its leg's
baton slot; every runner is parked (or already gone). -/
def ShapeBaton (tr : List Call) (evs : List Ev) (s : RaceState) : Prop :=
  ∃ (k : Nat) (hk : k < tr.length),
    evs = evOf (tr.take k) ∧
    s.stream = tr.drop (k + 1) ∧
    s.baton (tr.get ⟨k, hk⟩).thread_id = some (tr.get ⟨k, hk⟩) ∧
    (∀ u, u ≠ (tr.get ⟨k, hk⟩).thread_id → s.baton u = none) ∧
    (∀ u, s.phase u = Phase.waiting ∨ s.phase u = Phase.done)

/-- Reachable-state shape 2: one runner is inside `retraceCall` on the
`k`-th call; all baton slots are empty. -/
def ShapeWorking (tr : List Call) (evs : List Ev) (s : RaceState) : Prop :=
  ∃ (k : Nat) (hk : k < tr.length) (w : Nat),
    evs = evOf (tr.take k) ++ [Ev.beginD (tr.get ⟨k, hk⟩)] ∧
    s.stream = tr.drop (k + 1) ∧
    s.phase w = Phase.working (tr.get ⟨k, hk⟩) ∧
    (∀ u, u ≠ w → s.phase u = Phase.waiting ∨ s.phase u = Phase.done) ∧
    (∀ u, s.baton u = none)

/-- Reachable-state shape 3: one runner is inside `parse_call`, the first
`k` calls having been fully dispatched; all baton slots are empty. -/
def ShapeParsing (tr : List Call) (evs : List Ev) (s : RaceState) : Prop :=
  ∃ (k : Nat), k ≤ tr.length ∧ ∃ (w : Nat),
    evs = evOf (tr.take k) ∧
    s.stream = tr.drop k ∧
    s.phase w = Phase.parsing ∧
    (∀ u, u ≠ w → s.phase u = Phase.waiting ∨ s.phase u = Phase.done) ∧
    (∀ u, s.baton u = none)

/-- Reachable-state shape 4: the stream is exhausted and fully dispatched;
only finish/teardown steps remain. -/
def ShapeDrained (tr : List Call) (evs : List Ev) (s : RaceState) : Prop :=
  evs = evOf tr ∧
  s.stream = [] ∧
  (∀ u, s.phase u = Phase.waiting ∨ s.phase u = Phase.done) ∧
  (∀ u, s.baton u = none)

/-- Invariant shape of every reachable race state. -/
def Shape (tr : List Call) (evs : List Ev) (s : RaceState) : Prop :=
  ShapeBaton tr evs s ∨ ShapeWorking tr evs s ∨ ShapeParsing tr evs s ∨
    ShapeDrained tr evs s

theorem initRace_shape (tr : List Call) : Shape tr [] (initRace tr) := by
  cases tr with
  | nil =>
    refine Or.inr (Or.inr (Or.inr ⟨rfl, rfl, ?_, ?_⟩)) <;> intro u <;> simp [initRace]
  | cons c rest =>
    refine Or.inl ⟨0, by simp, rfl, rfl, ?_, ?_, ?_⟩
    · simp [initRace]
    · intro u hu
      simpa [initRace, Function.update] using fun h => absurd h hu
    · intro u
      simp [initRace]

theorem evOf_append (l₁ l₂ : List Call) : evOf (l₁ ++ l₂) = evOf l₁ ++ evOf l₂ := by
  induction l₁ with
  | nil => rfl
  | cons c l ih => simp [evOf, ih]

theorem evOf_length (l : List Call) : (evOf l).length = 2 * l.length := by
  induction l with
  | nil => rfl
  | cons c l ih => simp [evOf, ih]; ring

theorem beginD_mem_evOf {c : Call} {l : List Call} :
    Ev.beginD c ∈ evOf l ↔ c ∈ l := by
  induction l with
  | nil => simp [evOf]
  | cons d l ih => simp [evOf, ih]

theorem evOf_take_succ {tr : List Call} {k : Nat} (hk : k < tr.length) :
    evOf (tr.take (k + 1)) =
      evOf (tr.take k) ++ [Ev.beginD (tr.get ⟨k, hk⟩), Ev.endD (tr.get ⟨k, hk⟩)] := by
  rw [List.take_succ]
  have : tr[k]? = some (tr.get ⟨k, hk⟩) := by
    simpa using List.get?_eq_get hk
  rw [this, evOf_append]
  rfl

theorem drop_cons_elim {tr : List Call} {k : Nat} {h : Call} {rest : List Call}
    (hd : tr.drop k = h :: rest) :
    ∃ hk : k < tr.length, h = tr.get ⟨k, hk⟩ ∧ rest = tr.drop (k + 1) := by
  have hk : k < tr.length := by
    by_contra hle
    push_neg at hle
    rw [List.drop_eq_nil_of_le hle] at hd
    cases hd
  refine ⟨hk, ?_, ?_⟩ <;>
    · rw [List.drop_eq_get_cons hk] at hd
      injection hd with h1 h2
      first
        | exact h1.symm
        | exact h2.symm

theorem drop_nil_len {tr : List Call} {k : Nat} (hkle : k ≤ tr.length)
    (hd : tr.drop k = []) : k = tr.length := by
  rcases Nat.lt_or_ge k tr.length with hlt | hge
  · rw [List.drop_eq_get_cons hlt] at hd
    cases hd
  · exact Nat.le_antisymm hkle hge

theorem shape_step {tr : List Call} {evs : List Ev} {s : RaceState} {t : Nat}
    {e : List Ev} {s' : RaceState} (hsh : Shape tr evs s) (hst : StepE t e s s') :
    Shape tr (evs ++ e) s' := by
  cases hst with
  | takeBaton t c s hw hf hb =>
    rcases hsh with ⟨k, hk, hevs, hstr, hb1, hbn, hph⟩ |
      ⟨k, hk, w, hevs, hstr, hpw, hpo, hba⟩ |
      ⟨k, hkle, w, hevs, hstr, hpw, hpo, hba⟩ |
      ⟨hevs, hstr, hph, hba⟩
    · have ht : t = (tr.get ⟨k, hk⟩).thread_id := by
        by_contra hne
        rw [hbn t hne] at hb
        cases hb
      have hc : c = tr.get ⟨k, hk⟩ := by
        rw [ht, hb1] at hb
        exact (Option.some.inj hb).symm
      refine Or.inr (Or.inl ⟨k, hk, t, ?_, ?_, ?_, ?_, ?_⟩)
      · rw [hevs, hc]
      · exact hstr
      · simp [Function.update_same, hc]
      · intro u hu
        simpa [Function.update_noteq hu] using hph u
      · intro u
        by_cases hu : u = t
        · subst hu
          simp [Function.update_same]
        · have hu2 : u ≠ (tr.get ⟨k, hk⟩).thread_id := by
            rw [← ht]
            exact hu
          show Function.update s.baton t none u = none
          rw [Function.update_noteq hu]
          exact hbn u hu2
    · rw [hba t] at hb
      cases hb
    · rw [hba t] at hb
      cases hb
    · rw [hba t] at hb
      cases hb
  | wakeFinishLead s hw hf =>
    have hup : ∀ (ph : Nat → Phase), (∀ u, u ≠ 0 → ph u = Phase.waiting ∨ ph u = Phase.done) →
        ∀ u, Function.update ph 0 Phase.done u = Phase.waiting ∨
          Function.update ph 0 Phase.done u = Phase.done := by
      intro ph hp u
      by_cases hu : u = 0
      · subst hu
        simp [Function.update_same]
      · simpa [Function.update_noteq hu] using hp u hu
    rcases hsh with ⟨k, hk, hevs, hstr, hb1, hbn, hph⟩ |
      ⟨k, hk, w, hevs, hstr, hpw, hpo, hba⟩ |
      ⟨k, hkle, w, hevs, hstr, hpw, hpo, hba⟩ |
      ⟨hevs, hstr, hph, hba⟩
    · refine Or.inl ⟨k, hk, by simpa using hevs, hstr, hb1, hbn, hup s.phase (fun u _ => hph u)⟩
    · have hw0 : w ≠ 0 := by
        intro h0
        rw [h0, hw] at hpw
        cases hpw
      refine Or.inr (Or.inl ⟨k, hk, w, by simpa using hevs, hstr, ?_, ?_, hba⟩)
      · simpa [Function.update_noteq hw0] using hpw
      · intro u hu
        by_cases hu0 : u = 0
        · subst hu0
          simp [Function.update_same]
        · simpa [Function.update_noteq hu0] using hpo u hu
    · have hw0 : w ≠ 0 := by
        intro h0
        rw [h0, hw] at hpw
        cases hpw
      refine Or.inr (Or.inr (Or.inl ⟨k, hkle, w, by simpa using hevs, hstr, ?_, ?_, hba⟩))
      · simpa [Function.update_noteq hw0] using hpw
      · intro u hu
        by_cases hu0 : u = 0
        · subst hu0
          simp [Function.update_same]
        · simpa [Function.update_noteq hu0] using hpo u hu
    · exact Or.inr (Or.inr (Or.inr ⟨by simpa using hevs, hstr,
        hup s.phase (fun u _ => hph u), hba⟩))
  | wakeFinish t s ht hw hf =>
    have hup : ∀ (ph : Nat → Phase), (∀ u, u ≠ t → ph u = Phase.waiting ∨ ph u = Phase.done) →
        ∀ u, Function.update ph t Phase.done u = Phase.waiting ∨
          Function.update ph t Phase.done u = Phase.done := by
      intro ph hp u
      by_cases hu : u = t
      · subst hu
        simp [Function.update_same]
      · simpa [Function.update_noteq hu] using hp u hu
    rcases hsh with ⟨k, hk, hevs, hstr, hb1, hbn, hph⟩ |
      ⟨k, hk, w, hevs, hstr, hpw, hpo, hba⟩ |
      ⟨k, hkle, w, hevs, hstr, hpw, hpo, hba⟩ |
      ⟨hevs, hstr, hph, hba⟩
    · exact Or.inl ⟨k, hk, by simpa using hevs, hstr, hb1, hbn,
        hup s.phase (fun u _ => hph u)⟩
    · have hwt : w ≠ t := by
        intro h0
        rw [h0, hw] at hpw
        cases hpw
      refine Or.inr (Or.inl ⟨k, hk, w, by simpa using hevs, hstr, ?_, ?_, hba⟩)
      · simpa [Function.update_noteq hwt] using hpw
      · intro u hu
        by_cases hut : u = t
        · subst hut
          simp [Function.update_same]
        · simpa [Function.update_noteq hut] using hpo u hu
    · have hwt : w ≠ t := by
        intro h0
        rw [h0, hw] at hpw
        cases hpw
      refine Or.inr (Or.inr (Or.inl ⟨k, hkle, w, by simpa using hevs, hstr, ?_, ?_, hba⟩))
      · simpa [Function.update_noteq hwt] using hpw
      · intro u hu
        by_cases hut : u = t
        · subst hut
          simp [Function.update_same]
        · simpa [Function.update_noteq hut] using hpo u hu
    · exact Or.inr (Or.inr (Or.inr ⟨by simpa using hevs, hstr,
        hup s.phase (fun u _ => hph u), hba⟩))
  | dispatchDone t c s hw =>
    rcases hsh with ⟨k, hk, hevs, hstr, hb1, hbn, hph⟩ |
      ⟨k, hk, w, hevs, hstr, hpw, hpo, hba⟩ |
      ⟨k, hkle, w, hevs, hstr, hpw, hpo, hba⟩ |
      ⟨hevs, hstr, hph, hba⟩
    · rcases hph t with h | h <;> rw [hw] at h <;> cases h
    · have htw : t = w := by
        by_contra hne
        rcases hpo t hne with h | h <;> rw [hw] at h <;> cases h
      have hc : c = tr.get ⟨k, hk⟩ := by
        rw [htw, hpw] at hw
        injection hw with h1
        exact h1.symm
      refine Or.inr (Or.inr (Or.inl ⟨k + 1, hk, t, ?_, hstr, ?_, ?_, hba⟩))
      · rw [hevs, hc, evOf_take_succ hk, List.append_assoc]
        rfl
      · simp [Function.update_same]
      · intro u hu
        subst htw
        simpa [Function.update_noteq hu] using hpo u hu
    · have h := hw
      by_cases hne : t = w
      · rw [hne, hpw] at h
        cases h
      · rcases hpo t hne with h2 | h2 <;> rw [hw] at h2 <;> cases h2
    · rcases hph t with h | h <;> rw [hw] at h <;> cases h
  | parseSame t h rest s hw hs ht =>
    rcases hsh with ⟨k, hk, hevs, hstr, hb1, hbn, hph⟩ |
      ⟨k, hk, w, hevs, hstr, hpw, hpo, hba⟩ |
      ⟨k, hkle, w, hevs, hstr, hpw, hpo, hba⟩ |
      ⟨hevs, hstr, hph, hba⟩
    · rcases hph t with h2 | h2 <;> rw [hw] at h2 <;> cases h2
    · by_cases hne : t = w
      · rw [hne, hpw] at hw
        cases hw
      · rcases hpo t hne with h2 | h2 <;> rw [hw] at h2 <;> cases h2
    · have htw : t = w := by
        by_contra hne
        rcases hpo t hne with h2 | h2 <;> rw [hw] at h2 <;> cases h2
      rw [hstr] at hs
      obtain ⟨hk, hh, hrest⟩ := drop_cons_elim hs
      refine Or.inr (Or.inl ⟨k, hk, t, ?_, ?_, ?_, ?_, hba⟩)
      · rw [hevs, hh]
      · exact hrest
      · simp [Function.update_same, hh]
      · intro u hu
        subst htw
        simpa [Function.update_noteq hu] using hpo u hu
    · rcases hph t with h2 | h2 <;> rw [hw] at h2 <;> cases h2
  | parseForeign t h rest s hw hs ht =>
    rcases hsh with ⟨k, hk, hevs, hstr, hb1, hbn, hph⟩ |
      ⟨k, hk, w, hevs, hstr, hpw, hpo, hba⟩ |
      ⟨k, hkle, w, hevs, hstr, hpw, hpo, hba⟩ |
      ⟨hevs, hstr, hph, hba⟩
    · rcases hph t with h2 | h2 <;> rw [hw] at h2 <;> cases h2
    · by_cases hne : t = w
      · rw [hne, hpw] at hw
        cases hw
      · rcases hpo t hne with h2 | h2 <;> rw [hw] at h2 <;> cases h2
    · have htw : t = w := by
        by_contra hne
        rcases hpo t hne with h2 | h2 <;> rw [hw] at h2 <;> cases h2
      rw [hstr] at hs
      obtain ⟨hk, hh, hrest⟩ := drop_cons_elim hs
      refine Or.inl ⟨k, hk, by simpa using hevs, ?_, ?_, ?_, ?_⟩
      · exact hrest
      · show Function.update s.baton h.thread_id (some h) (tr.get ⟨k, hk⟩).thread_id
          = some (tr.get ⟨k, hk⟩)
        rw [← hh, Function.update_same]
      · intro u hu
        rw [← hh] at hu
        show Function.update s.baton h.thread_id (some h) u = none
        rw [Function.update_noteq hu]
        exact hba u
      · intro u
        by_cases hut : u = t
        · subst hut
          simp [Function.update_same]
        · show Function.update s.phase t Phase.waiting u = Phase.waiting ∨
            Function.update s.phase t Phase.waiting u = Phase.done
          rw [Function.update_noteq hut]
          exact hpo u (htw ▸ hut)
    · rcases hph t with h2 | h2 <;> rw [hw] at h2 <;> cases h2
  | parseEos t s hw hs =>
    rcases hsh with ⟨k, hk, hevs, hstr, hb1, hbn, hph⟩ |
      ⟨k, hk, w, hevs, hstr, hpw, hpo, hba⟩ |
      ⟨k, hkle, w, hevs, hstr, hpw, hpo, hba⟩ |
      ⟨hevs, hstr, hph, hba⟩
    · rcases hph t with h2 | h2 <;> rw [hw] at h2 <;> cases h2
    · by_cases hne : t = w
      · rw [hne, hpw] at hw
        cases hw
      · rcases hpo t hne with h2 | h2 <;> rw [hw] at h2 <;> cases h2
    · have htw : t = w := by
        by_contra hne
        rcases hpo t hne with h2 | h2 <;> rw [hw] at h2 <;> cases h2
      rw [hstr] at hs
      have hkl : k = tr.length := drop_nil_len hkle hs
      refine Or.inr (Or.inr (Or.inr ⟨?_, ?_, ?_, hba⟩))
      · rw [hevs, hkl, List.take_length]
        simp
      · simpa [hstr] using hs
      · intro u
        by_cases hut : u = t
        · subst hut
          simp [Function.update_same]
        · subst htw
          simpa [Function.update_noteq hut] using hpo u hut
    · rcases hph t with h2 | h2 <;> rw [hw] at h2 <;> cases h2

theorem reach_shape {tr : List Call} {evs : List Ev} {s : RaceState}
    (h : ReachT (initRace tr) evs s) : Shape tr evs s := by
  induction h with
  | refl => exact initRace_shape tr
  | step hr hst ih => exact shape_step ih hst

theorem shape_exclusive {tr : List Call} {evs : List Ev} {s : RaceState}
    (h : Shape tr evs s) : ExclusiveOccupancy s := by
  intro t₁ t₂ h₁ h₂
  rcases h with ⟨k, hk, hevs, hstr, hb1, hbn, hph⟩ |
    ⟨k, hk, w, hevs, hstr, hpw, hpo, hba⟩ |
    ⟨k, hkle, w, hevs, hstr, hpw, hpo, hba⟩ |
    ⟨hevs, hstr, hph, hba⟩
  · have key : ∀ t, Occupied s t → t = (tr.get ⟨k, hk⟩).thread_id := by
      intro t hocc
      rcases hocc with ⟨c, hc⟩ | hp | hbne
      · rcases hph t with h2 | h2 <;> rw [hc] at h2 <;> cases h2
      · rcases hph t with h2 | h2 <;> rw [hp] at h2 <;> cases h2
      · by_contra hne
        exact hbne (hbn t hne)
    rw [key t₁ h₁, key t₂ h₂]
  · have key : ∀ t, Occupied s t → t = w := by
      intro t hocc
      rcases hocc with ⟨c, hc⟩ | hp | hbne
      · by_contra hne
        rcases hpo t hne with h2 | h2 <;> rw [hc] at h2 <;> cases h2
      · by_contra hne
        rcases hpo t hne with h2 | h2 <;> rw [hp] at h2 <;> cases h2
      · exact absurd (hba t) hbne
    rw [key t₁ h₁, key t₂ h₂]
  · have key : ∀ t, Occupied s t → t = w := by
      intro t hocc
      rcases hocc with ⟨c, hc⟩ | hp | hbne
      · by_contra hne
        rcases hpo t hne with h2 | h2 <;> rw [hc] at h2 <;> cases h2
      · by_contra hne
        rcases hpo t hne with h2 | h2 <;> rw [hp] at h2 <;> cases h2
      · exact absurd (hba t) hbne
    rw [key t₁ h₁, key t₂ h₂]
  · exfalso
    rcases h₁ with ⟨c, hc⟩ | hp | hbne
    · rcases hph t₁ with h2 | h2 <;> rw [hc] at h2 <;> cases h2
    · rcases hph t₁ with h2 | h2 <;> rw [hp] at h2 <;> cases h2
    · exact hbne (hba t₁)

theorem batonHandoff_all (s : RaceState) : BatonHandoffDiscipline s := by
  intro t e s' hst u c
  cases hst with
  | takeBaton t c' s hw hf hb =>
    constructor
    · intro h1 h2
      replace h2 : Function.update s.baton t none u = some c := h2
      by_cases hut : u = t
      · subst hut
        rw [Function.update_same] at h2
        cases h2
      · rw [Function.update_noteq hut, h1] at h2
        cases h2
    · intro h1 h2
      by_cases hut : u = t
      · exact hut.symm
      · replace h2 : Function.update s.baton t none u = none := h2
        rw [Function.update_noteq hut, h1] at h2
        cases h2
  | wakeFinishLead s hw hf =>
    constructor
    · intro h1 h2
      replace h2 : s.baton u = some c := h2
      rw [h1] at h2
      cases h2
    · intro h1 h2
      replace h2 : s.baton u = none := h2
      rw [h1] at h2
      cases h2
  | wakeFinish t s ht hw hf =>
    constructor
    · intro h1 h2
      replace h2 : s.baton u = some c := h2
      rw [h1] at h2
      cases h2
    · intro h1 h2
      replace h2 : s.baton u = none := h2
      rw [h1] at h2
      cases h2
  | dispatchDone t c' s hw =>
    constructor
    · intro h1 h2
      replace h2 : s.baton u = some c := h2
      rw [h1] at h2
      cases h2
    · intro h1 h2
      replace h2 : s.baton u = none := h2
      rw [h1] at h2
      cases h2
  | parseSame t h rest s hw hs ht =>
    constructor
    · intro h1 h2
      replace h2 : s.baton u = some c := h2
      rw [h1] at h2
      cases h2
    · intro h1 h2
      replace h2 : s.baton u = none := h2
      rw [h1] at h2
      cases h2
  | parseForeign t h rest s hw hs ht =>
    constructor
    · intro h1 h2
      intro heq
      apply ht
      by_cases hut : u = h.thread_id
      · rw [← hut]
        exact heq.symm
      · replace h2 : Function.update s.baton h.thread_id (some h) u = some c := h2
        rw [Function.update_noteq hut, h1] at h2
        cases h2
    · intro h1 h2
      replace h2 : Function.update s.baton h.thread_id (some h) u = none := h2
      by_cases hut : u = h.thread_id
      · rw [hut, Function.update_same] at h2
        cases h2
      · rw [Function.update_noteq hut, h1] at h2
        cases h2
  | parseEos t s hw hs =>
    constructor
    · intro h1 h2
      replace h2 : s.baton u = some c := h2
      rw [h1] at h2
      cases h2
    · intro h1 h2
      replace h2 : s.baton u = none := h2
      rw [h1] at h2
      cases h2

/-- A one-call single-threaded demonstration trace. -/
def demoCall : Call :=
  { no := 1, thread_id := 0, swapRendertarget := false, endFrame := false }

/-- Demonstration trace for concrete instantiations. -/
def demoTrace : List Call := [demoCall]

/-- C1: in every reachable state of the relay race, at most one runner is
occupied — inside `retraceCall` (hence inside `retracer.retrace` or
`takeSnapshot`), inside `parse_call`, or holding a non-empty baton slot —
so at most one worker executes the dispatch/parse/snapshot region and at
most one baton slot is non-empty at any instant; moreover every step that
fills a leg's baton slot is taken by a different leg (the previous active
worker via `passBaton`/`receiveBaton`, the sole producer) and every step
that empties it is taken by the owning leg itself (the sole consumer). -/
theorem relayRace_baton_exclusion (tr : List Call) (evs : List Ev)
    (s : RaceState) (h : ReachT (initRace tr) evs s) :
    ExclusiveOccupancy s ∧ BatonHandoffDiscipline s :=
  ⟨shape_exclusive (reach_shape h), batonHandoff_all s⟩

theorem relayRace_baton_exclusion_witness :
    ExclusiveOccupancy (initRace demoTrace) ∧
      BatonHandoffDiscipline (initRace demoTrace) :=
  relayRace_baton_exclusion demoTrace [] (initRace demoTrace) ReachT.refl

theorem evOf_get_even (l : List Call) (i : Nat) (h : i < l.length) :
    (evOf l).get? (2 * i) = some (Ev.beginD (l.get ⟨i, h⟩)) := by
  induction l generalizing i with
  | nil => cases h
  | cons c l ih =>
    cases i with
    | zero => rfl
    | succ i' =>
      have h' : i' < l.length := Nat.lt_of_succ_lt_succ h
      have h2 : 2 * (i' + 1) = 2 * i' + 1 + 1 := by ring
      rw [h2]
      show (Ev.beginD c :: Ev.endD c :: evOf l).get? (2 * i' + 1 + 1) = _
      rw [List.get?_cons_succ, List.get?_cons_succ]
      simpa using ih i' h'

theorem evOf_get_odd (l : List Call) (i : Nat) (h : i < l.length) :
    (evOf l).get? (2 * i + 1) = some (Ev.endD (l.get ⟨i, h⟩)) := by
  induction l generalizing i with
  | nil => cases h
  | cons c l ih =>
    cases i with
    | zero => rfl
    | succ i' =>
      have h' : i' < l.length := Nat.lt_of_succ_lt_succ h
      have h2 : 2 * (i' + 1) + 1 = 2 * i' + 1 + 1 + 1 := by ring
      rw [h2]
      show (Ev.beginD c :: Ev.endD c :: evOf l).get? (2 * i' + 1 + 1 + 1) = _
      rw [List.get?_cons_succ, List.get?_cons_succ]
      simpa using ih i' h'

theorem get?_append_len {α : Type} (l₁ : List α) (x : α) (l₂ : List α) :
    (l₁ ++ x :: l₂).get? l₁.length = some x := by
  induction l₁ with
  | nil => rfl
  | cons a l ih => simpa using ih

theorem pos_unique {tr : List Call}
    (hmono : List.Pairwise (fun a b => a.no < b.no) tr)
    {b : Call} {i j : Fin tr.length} (hi : tr.get i = b) (hj : tr.get j = b) :
    i = j := by
  rcases lt_trichotomy i j with h | h | h
  · exfalso
    have h2 := List.pairwise_iff_get.mp hmono i j h
    rw [hi, hj] at h2
    exact lt_irrefl _ h2
  · exact h
  · exfalso
    have h2 := List.pairwise_iff_get.mp hmono j i h
    rw [hi, hj] at h2
    exact lt_irrefl _ h2

theorem pos_of_mem_lt {tr : List Call}
    (hmono : List.Pairwise (fun a b => a.no < b.no) tr)
    {a b : Call} (ha : a ∈ tr) (hb : b ∈ tr) (hab : a.no < b.no) :
    ∃ (i j : Fin tr.length), i < j ∧ tr.get i = a ∧ tr.get j = b := by
  obtain ⟨i, hi⟩ := List.get_of_mem ha
  obtain ⟨j, hj⟩ := List.get_of_mem hb
  refine ⟨i, j, ?_, hi, hj⟩
  rcases lt_trichotomy i j with h | h | h
  · exact h
  · exfalso
    rw [h, hj] at hi
    rw [← hi] at hab
    exact lt_irrefl _ hab
  · exfalso
    have h2 := List.pairwise_iff_get.mp hmono j i h
    rw [hi, hj] at h2
    exact lt_asymm hab h2

theorem shape_evs {tr : List Call} {evs : List Ev} {s : RaceState}
    (h : Shape tr evs s) :
    (∃ k, k ≤ tr.length ∧ evs = evOf (tr.take k)) ∨
    (∃ k, ∃ hk : k < tr.length,
      evs = evOf (tr.take k) ++ [Ev.beginD (tr.get ⟨k, hk⟩)]) := by
  rcases h with ⟨k, hk, hevs, _⟩ | ⟨k, hk, w, hevs, _⟩ |
    ⟨k, hkle, w, hevs, _⟩ | ⟨hevs, _⟩
  · exact Or.inl ⟨k, le_of_lt hk, hevs⟩
  · exact Or.inr ⟨k, hk, hevs⟩
  · exact Or.inl ⟨k, hkle, hevs⟩
  · exact Or.inl ⟨tr.length, le_refl _, by rw [List.take_length]; exact hevs⟩

/-- C2: under the scheduler's stream assumption (strictly increasing call
indices), for any two calls of the trace with `a.no < b.no` — in particular
same-thread pairs ordered by `no`, and cross-thread pairs in stream order —
every reachable execution of the relay race in which `retraceCall(b)` has
begun contains the completion of `retraceCall(a)` strictly earlier than the
beginning of `retraceCall(b)`: dispatch of `a` completes before dispatch of
`b` begins, and relative dispatch order equals trace stream order. -/
theorem relayRace_dispatch_order (tr : List Call)
    (hmono : List.Pairwise (fun a b => a.no < b.no) tr)
    (evs : List Ev) (s : RaceState) (hr : ReachT (initRace tr) evs s)
    (a b : Call) (ha : a ∈ tr) (hb : b ∈ tr) (hab : a.no < b.no)
    (hbegin : Ev.beginD b ∈ evs) :
    ∃ i j : Nat, i < j ∧ evs.get? i = some (Ev.endD a) ∧
      evs.get? j = some (Ev.beginD b) := by
  obtain ⟨i, j, hij, hi, hj⟩ := pos_of_mem_lt hmono ha hb hab
  rcases shape_evs (reach_shape hr) with ⟨k, hkle, hevs⟩ | ⟨k, hk, hevs⟩
  · -- evs = evOf (tr.take k)
    have hbk : b ∈ tr.take k := by
      rw [hevs] at hbegin
      exact beginD_mem_evOf.mp hbegin
    obtain ⟨m, hm⟩ := List.get_of_mem hbk
    have hlentk : (List.take k tr).length = min k tr.length := List.length_take _ _
    have hmk : (m : Nat) < k :=
      lt_of_lt_of_le m.isLt (le_trans (le_of_eq hlentk) (min_le_left _ _))
    have hmlen : (m : Nat) < tr.length :=
      lt_of_lt_of_le m.isLt (le_trans (le_of_eq hlentk) (min_le_right _ _))
    have hglobal : tr.get ⟨m, hmlen⟩ = b := by
      rw [List.get_take tr hmlen hmk]
      simpa using hm
    have hjm : j = ⟨(m : Nat), hmlen⟩ := pos_unique hmono hj hglobal
    have hjk : (j : Nat) < k := by
      rw [hjm]
      exact hmk
    have hik : (i : Nat) < k := lt_trans hij hjk
    have hitk : (i : Nat) < (tr.take k).length := by
      rw [List.length_take]
      exact lt_min hik i.isLt
    have hjtk : (j : Nat) < (tr.take k).length := by
      rw [List.length_take]
      exact lt_min hjk j.isLt
    refine ⟨2 * (i : Nat) + 1, 2 * (j : Nat), by omega, ?_, ?_⟩
    · rw [hevs, evOf_get_odd (tr.take k) (i : Nat) hitk]
      have h3 : (tr.take k).get ⟨(i : Nat), hitk⟩ = a := by
        rw [← List.get_take tr i.isLt hik]
        simpa using hi
      rw [h3]
    · rw [hevs, evOf_get_even (tr.take k) (j : Nat) hjtk]
      have h3 : (tr.take k).get ⟨(j : Nat), hjtk⟩ = b := by
        rw [← List.get_take tr j.isLt hjk]
        simpa using hj
      rw [h3]
  · -- evs = evOf (tr.take k) ++ [beginD (tr.get k)]
    rw [hevs] at hbegin
    rcases List.mem_append.mp hbegin with hmem | hmem
    · -- b occurs among the first k fully dispatched calls
      have hbk : b ∈ tr.take k := beginD_mem_evOf.mp hmem
      obtain ⟨m, hm⟩ := List.get_of_mem hbk
      have hlentk : (List.take k tr).length = min k tr.length := List.length_take _ _
      have hmk : (m : Nat) < k :=
        lt_of_lt_of_le m.isLt (le_trans (le_of_eq hlentk) (min_le_left _ _))
      have hmlen : (m : Nat) < tr.length :=
        lt_of_lt_of_le m.isLt (le_trans (le_of_eq hlentk) (min_le_right _ _))
      have hglobal : tr.get ⟨m, hmlen⟩ = b := by
        rw [List.get_take tr hmlen hmk]
        simpa using hm
      have hjm : j = ⟨(m : Nat), hmlen⟩ := pos_unique hmono hj hglobal
      have hjk : (j : Nat) < k := by
        rw [hjm]
        exact hmk
      have hik : (i : Nat) < k := lt_trans hij hjk
      have hitk : (i : Nat) < (tr.take k).length := by
        rw [List.length_take]
        exact lt_min hik i.isLt
      have hjtk : (j : Nat) < (tr.take k).length := by
        rw [List.length_take]
        exact lt_min hjk j.isLt
      refine ⟨2 * (i : Nat) + 1, 2 * (j : Nat), by omega, ?_, ?_⟩
      · rw [hevs, List.get?_append (by rw [evOf_length]; omega),
          evOf_get_odd (tr.take k) (i : Nat) hitk]
        have h3 : (tr.take k).get ⟨(i : Nat), hitk⟩ = a := by
          rw [← List.get_take tr i.isLt hik]
          simpa using hi
        rw [h3]
      · rw [hevs, List.get?_append (by rw [evOf_length]; omega),
          evOf_get_even (tr.take k) (j : Nat) hjtk]
        have h3 : (tr.take k).get ⟨(j : Nat), hjtk⟩ = b := by
          rw [← List.get_take tr j.isLt hjk]
          simpa using hj
        rw [h3]
    · -- b is the call whose dispatch has just begun
      have hbk : b = tr.get ⟨k, hk⟩ := by
        simpa using hmem
      have hjm : j = ⟨k, hk⟩ := pos_unique hmono hj hbk.symm
      have hik : (i : Nat) < k := by
        have h2 : (i : Nat) < (j : Nat) := hij
        rw [hjm] at h2
        exact h2
      have hitk : (i : Nat) < (tr.take k).length := by
        rw [List.length_take]
        exact lt_min hik i.isLt
      have hlen1 : (evOf (tr.take k)).length = 2 * k := by
        rw [evOf_length, List.length_take]
        have : min k tr.length = k := min_eq_left (le_of_lt hk)
        rw [this]
      refine ⟨2 * (i : Nat) + 1, 2 * k, by omega, ?_, ?_⟩
      · rw [hevs, List.get?_append (by omega),
          evOf_get_odd (tr.take k) (i : Nat) hitk]
        have h3 : (tr.take k).get ⟨(i : Nat), hitk⟩ = a := by
          rw [← List.get_take tr i.isLt hik]
          simpa using hi
        rw [h3]
      · rw [hevs, ← hlen1, ← hbk]
        exact get?_append_len _ _ _

/-- First call of the two-thread demonstration trace. -/
def demoA : Call :=
  { no := 1, thread_id := 0, swapRendertarget := false, endFrame := false }

/-- Second call of the two-thread demonstration trace (foreign thread). -/
def demoB : Call :=
  { no := 2, thread_id := 1, swapRendertarget := false, endFrame := false }

/-- Two-call demonstration trace crossing a thread boundary. -/
def demoTrace2 : List Call := [demoA, demoB]

theorem relayRace_dispatch_order_witness :
    ∃ i j : Nat, i < j ∧
      [Ev.beginD demoA, Ev.endD demoA, Ev.beginD demoB].get? i
        = some (Ev.endD demoA) ∧
      [Ev.beginD demoA, Ev.endD demoA, Ev.beginD demoB].get? j
        = some (Ev.beginD demoB) := by
  have r0 : ReachT (initRace demoTrace2) [] (initRace demoTrace2) := ReachT.refl
  have r1 := ReachT.step r0
    (StepE.takeBaton 0 demoA (initRace demoTrace2) rfl rfl rfl)
  have r2 := ReachT.step r1 (StepE.dispatchDone 0 demoA _ rfl)
  have r3 := ReachT.step r2 (StepE.parseForeign 0 demoB [] _ rfl rfl (by decide))
  have r4 := ReachT.step r3 (StepE.takeBaton 1 demoB _ rfl rfl rfl)
  exact relayRace_dispatch_order demoTrace2 (by decide) _ _ r4 demoA demoB
    (by decide) (by decide) (by decide) (by decide)

theorem retraceCall_exit {Img : Type} (cfg : RCfg) (env : Env Img)
    (s : GState) (c : Call) :
    (retraceCall cfg env s c).2.2 =
      if decide (cfg.dumpStateCallNo ≤ c.no) && cfg.dumpStateOk then some 0
      else none := rfl

theorem retraceCall_fst (cfg : RCfg) {Img : Type} (env : Env Img)
    (s : GState) (c : Call) :
    (retraceCall cfg env s c).1 = dispatchEffect { s with callNo := c.no } c := rfl

theorem retraceCall_fst_callNo {Img : Type} (cfg : RCfg) (env : Env Img)
    (s : GState) (c : Call) : ((retraceCall cfg env s c).1).callNo = c.no := by
  rw [retraceCall_fst]
  unfold dispatchEffect frameComplete
  cases c.endFrame <;> simp

theorem retraceCall_fst_frameNo {Img : Type} (cfg : RCfg) (env : Env Img)
    (s : GState) (c : Call) :
    ((retraceCall cfg env s c).1).frameNo =
      s.frameNo + (if c.endFrame then 1 else 0) := by
  rw [retraceCall_fst]
  unfold dispatchEffect frameComplete
  cases c.endFrame <;> simp

theorem dispatchedCalls_retraceCall {Img : Type} (cfg : RCfg) (env : Env Img)
    (s : GState) (c : Call) :
    dispatchedCalls (retraceCall cfg env s c).2.1 = [c] := by
  cases hds : (cfg.snapshotFreq c || cfg.compareFreq c) <;>
    cases hsw : c.swapRendertarget <;>
      cases hef : c.endFrame <;>
        simp [retraceCall, dispatchedCalls, hds, hsw, hef]

theorem dispatched_mem_retraceCall {Img : Type} (cfg : RCfg) (env : Env Img)
    (s : GState) (c : Call) :
    REvent.dispatched c ∈ (retraceCall cfg env s c).2.1 := by
  show REvent.dispatched c ∈ _ ++ [REvent.dispatched c] ++ _
  simp

/-- The claim's decision table for the pre-dispatch snapshot, with the
index `c.no − 1` read as plain natural-number subtraction. -/
def specPreIdx (cfg : RCfg) (c : Call) : Option Nat :=
  if (cfg.snapshotFreq c || cfg.compareFreq c) && c.swapRendertarget then
    some (if c.endFrame then c.no else c.no - 1)
  else none

/-- The claim's decision table for the pre-dispatch snapshot, amended to
read `c.no − 1` as the program's 32-bit unsigned subtraction. -/
def specPreIdxU (cfg : RCfg) (c : Call) : Option Nat :=
  if (cfg.snapshotFreq c || cfg.compareFreq c) && c.swapRendertarget then
    some (if c.endFrame then c.no else usub1 c.no)
  else none

/-- The claim's decision table for the post-dispatch snapshot. -/
def specPostIdx (cfg : RCfg) (c : Call) : Option Nat :=
  if (cfg.snapshotFreq c || cfg.compareFreq c) && !c.swapRendertarget then
    some c.no
  else none

/-- Snapshot-frequency configuration used for the snapshot-plan
counterexample: snapshot every call, no compare, output to `out/`. -/
def cfgC3 : RCfg :=
  { snapshotFreq := fun _ => true
    compareFreq := fun _ => false
    comparePfx := none
    snapshotPfx := some "out/"
    verbosity := 0
    dumpStateCallNo := dumpStateCallNoDefault
    dumpStateOk := false }

/-- Environment whose framebuffer capture always succeeds. -/
def envC3 : Env Unit :=
  { fs := fun _ => none, framebuffer := some (), writeOk := fun _ => true }

/-- A render-target-swapping, non-frame-ending call with index 0. -/
def callC3 : Call :=
  { no := 0, thread_id := 0, swapRendertarget := true, endFrame := false }

/-- C3 counterexample: for a call with `no = 0`, `SWAP_RENDERTARGET` and no
`END_FRAME`, the code invokes the pre-dispatch snapshot at the unsigned
wraparound index `2^32 − 1 = 4294967295`, not at `c.no − 1 = 0` as the
claim's decision table states. -/
theorem retraceCall_snapshot_plan_cex :
    snapsBefore (retraceCall cfgC3 envC3 { callNo := 0, frameNo := 0 } callC3).2.1
      ≠ (specPreIdx cfgC3 callC3).toList := by
  decide

/-- C3 (amended): `retraceCall` invokes `takeSnapshot` exactly as the
claim's decision table says, except that the pre-dispatch index `c.no − 1`
is computed in 32-bit unsigned arithmetic (so `2^32 − 1` when `c.no = 0`):
before dispatch at `c.no` (`END_FRAME`) or `c.no − 1` wrapped (otherwise)
when the call swaps render targets, after dispatch at `c.no` otherwise, and
not at all when neither frequency contains the call. -/
theorem retraceCall_snapshot_plan {Img : Type} (cfg : RCfg) (env : Env Img)
    (s : GState) (c : Call) :
    snapsBefore (retraceCall cfg env s c).2.1 = (specPreIdxU cfg c).toList ∧
    snapsAfter (retraceCall cfg env s c).2.1 = (specPostIdx cfg c).toList := by
  cases hds : (cfg.snapshotFreq c || cfg.compareFreq c) <;>
    cases hsw : c.swapRendertarget <;>
      cases hef : c.endFrame <;>
        simp [retraceCall, snapsBefore, snapsAfter, snapMarks, isDispatchEv,
          specPreIdxU, specPostIdx, hds, hsw, hef, List.takeWhile, List.dropWhile]

/-- Config with both compare and snapshot output configured. -/
def cfgC4 : RCfg :=
  { snapshotFreq := fun _ => true
    compareFreq := fun _ => true
    comparePfx := some "ref/"
    snapshotPfx := some "out/"
    verbosity := 0
    dumpStateCallNo := dumpStateCallNoDefault
    dumpStateOk := false }

/-- Environment with an empty filesystem (every reference PNG missing) but
a working framebuffer. -/
def envC4 : Env Unit :=
  { fs := fun _ => none, framebuffer := some (), writeOk := fun _ => true }

/-- C4 counterexample: with `comparePrefix` set and the reference image
missing, `takeSnapshot` produces nothing at all — in particular it never
reaches `writePNG`, so the output snapshot is NOT written even though
`snapshotPrefix` is set, contrary to the claim. -/
theorem takeSnapshot_missing_ref_cex :
    cfgC4.comparePfx = some "ref/" ∧ cfgC4.snapshotPfx = some "out/" ∧
    envC4.fs (snapName "ref/" 7) = none ∧
    takeSnapshot cfgC4 envC4 7 = [] :=
  ⟨rfl, rfl, rfl, rfl⟩

/-- C4 (amended): when `comparePrefix` is set and the reference PNG is
missing, `takeSnapshot` skips silently — no warning, no compare line, and
also no output snapshot, because it returns before `getSnapshot`/`writePNG`
even when `snapshotPrefix` is set; the call itself is still dispatched. -/
theorem takeSnapshot_missing_ref {Img : Type} (cfg : RCfg) (env : Env Img)
    (idx : Nat) (cp : String) (hc : cfg.comparePfx = some cp)
    (hf : env.fs (snapName cp idx) = none) :
    takeSnapshot cfg env idx = [] ∧
    ∀ (s : GState) (c : Call),
      REvent.dispatched c ∈ (retraceCall cfg env s c).2.1 := by
  refine ⟨?_, fun s c => dispatched_mem_retraceCall cfg env s c⟩
  simp [takeSnapshot, hc, hf]

theorem takeSnapshot_missing_ref_witness :
    takeSnapshot cfgC4 envC4 9 = [] ∧
    ∀ (s : GState) (c : Call),
      REvent.dispatched c ∈ (retraceCall cfgC4 envC4 s c).2.1 :=
  takeSnapshot_missing_ref cfgC4 envC4 9 "ref/" rfl rfl

/-- C5: with the external `dumpState` succeeding, the replay dispatches
calls up to and including the first call whose index has reached
`dumpStateCallNo`, then exits with status 0; no later call is dispatched.
In particular, on a sparse trace whose indices skip the threshold, the gate
fires on the first call past the threshold (`List.find?` of `no ≥`
threshold), not at the threshold value itself. -/
theorem replay_dump_gate {Img : Type} (cfg : RCfg) (env : Env Img)
    (s : GState) (tr : List Call) (hd : cfg.dumpStateOk = true) :
    dispatchedCalls (replayList cfg env s tr).2.1 =
      (match tr.find? (fun c => decide (cfg.dumpStateCallNo ≤ c.no)) with
       | none => tr
       | some c =>
         tr.takeWhile (fun c => !decide (cfg.dumpStateCallNo ≤ c.no)) ++ [c]) ∧
    (replayList cfg env s tr).2.2 =
      (tr.find? (fun c => decide (cfg.dumpStateCallNo ≤ c.no))).map
        (fun _ => 0) := by
  induction tr generalizing s with
  | nil => exact ⟨by simp [replayList, dispatchedCalls], by simp [replayList]⟩
  | cons c rest ih =>
    by_cases hp : cfg.dumpStateCallNo ≤ c.no
    · have hex : (retraceCall cfg env s c).2.2 = some 0 := by
        rw [retraceCall_exit]
        simp [hp, hd]
      constructor
      · show dispatchedCalls (replayList cfg env s (c :: rest)).2.1 = _
        simp [replayList, hex, dispatchedCalls_retraceCall, List.find?_cons_of_pos,
          hp, List.takeWhile_cons]
      · simp [replayList, hex, List.find?_cons_of_pos, hp]
    · have hex : (retraceCall cfg env s c).2.2 = none := by
        rw [retraceCall_exit]
        simp [hp]
      obtain ⟨ih1, ih2⟩ := ih (retraceCall cfg env s c).1
      constructor
      · have hsplit : dispatchedCalls (replayList cfg env s (c :: rest)).2.1 =
            dispatchedCalls (retraceCall cfg env s c).2.1 ++
              dispatchedCalls (replayList cfg env (retraceCall cfg env s c).1 rest).2.1 := by
          simp [replayList, hex, dispatchedCalls, List.filterMap_append]
        rw [hsplit, dispatchedCalls_retraceCall, ih1]
        cases hfind : rest.find? (fun c => decide (cfg.dumpStateCallNo ≤ c.no)) with
        | none =>
          simp [List.find?_cons_of_neg, hp, hfind]
        | some d =>
          simp [List.find?_cons_of_neg, hp, hfind, List.takeWhile_cons]
      · simp [replayList, hex, ih2, List.find?_cons_of_neg, hp]

/-- Trace with sparse indices 1, 3, 5 on thread 0. -/
def trC5 : List Call :=
  [{ no := 1, thread_id := 0, swapRendertarget := false, endFrame := false },
   { no := 3, thread_id := 0, swapRendertarget := false, endFrame := false },
   { no := 5, thread_id := 0, swapRendertarget := false, endFrame := false }]

/-- Config with `-D 2` (threshold 2) and a succeeding `dumpState`, no
snapshots. -/
def cfgC5 : RCfg :=
  { snapshotFreq := fun _ => false
    compareFreq := fun _ => false
    comparePfx := none
    snapshotPfx := none
    verbosity := 0
    dumpStateCallNo := 2
    dumpStateOk := true }

/-- Environment with no filesystem and no framebuffer. -/
def envTrivial : Env Unit :=
  { fs := fun _ => none, framebuffer := none, writeOk := fun _ => false }

theorem replay_dump_gate_witness :
    dispatchedCalls (replayList cfgC5 envTrivial { callNo := 0, frameNo := 0 } trC5).2.1 =
      (match trC5.find? (fun c => decide (cfgC5.dumpStateCallNo ≤ c.no)) with
       | none => trC5
       | some c =>
         trC5.takeWhile (fun c => !decide (cfgC5.dumpStateCallNo ≤ c.no)) ++ [c]) ∧
    (replayList cfgC5 envTrivial { callNo := 0, frameNo := 0 } trC5).2.2 =
      (trC5.find? (fun c => decide (cfgC5.dumpStateCallNo ≤ c.no))).map
        (fun _ => 0) :=
  replay_dump_gate cfgC5 envTrivial { callNo := 0, frameNo := 0 } trC5 rfl

/-- C6: immediately after `retraceCall` has dispatched `c` — the dispatch
event is in its event list — the process-wide counter `callNo` equals
`c.no`: it is assigned `call->no` just before `retracer.retrace(*call)` and
never modified afterwards within the call. -/
theorem retraceCall_sets_callNo {Img : Type} (cfg : RCfg) (env : Env Img)
    (s : GState) (c : Call) :
    ((retraceCall cfg env s c).1).callNo = c.no ∧
    REvent.dispatched c ∈ (retraceCall cfg env s c).2.1 :=
  ⟨retraceCall_fst_callNo cfg env s c, dispatched_mem_retraceCall cfg env s c⟩

theorem replayList_frameNo {Img : Type} (cfg : RCfg) (env : Env Img)
    (tr : List Call) : ∀ (s : GState),
    ((replayList cfg env s tr).1).frameNo =
      s.frameNo + List.countP (fun c => c.endFrame)
        (dispatchedCalls (replayList cfg env s tr).2.1) := by
  induction tr with
  | nil => intro s; simp [replayList, dispatchedCalls]
  | cons c rest ih =>
    intro s
    cases hex : (retraceCall cfg env s c).2.2 with
    | some code =>
      have h1 : (replayList cfg env s (c :: rest)).1 = (retraceCall cfg env s c).1 := by
        simp [replayList, hex]
      have h2 : (replayList cfg env s (c :: rest)).2.1 = (retraceCall cfg env s c).2.1 := by
        simp [replayList, hex]
      rw [h1, h2, retraceCall_fst_frameNo, dispatchedCalls_retraceCall]
      cases hef : c.endFrame <;> simp [List.countP_cons, hef]
    | none =>
      have h1 : (replayList cfg env s (c :: rest)).1 =
          (replayList cfg env (retraceCall cfg env s c).1 rest).1 := by
        simp [replayList, hex]
      have h2 : (replayList cfg env s (c :: rest)).2.1 =
          (retraceCall cfg env s c).2.1 ++
            (replayList cfg env (retraceCall cfg env s c).1 rest).2.1 := by
        simp [replayList, hex]
      rw [h1, h2, ih]
      have h3 : dispatchedCalls ((retraceCall cfg env s c).2.1 ++
          (replayList cfg env (retraceCall cfg env s c).1 rest).2.1) =
          [c] ++ dispatchedCalls
            (replayList cfg env (retraceCall cfg env s c).1 rest).2.1 := by
        rw [dispatchedCalls, List.filterMap_append, ← dispatchedCalls,
          ← dispatchedCalls, dispatchedCalls_retraceCall]
      rw [h3, retraceCall_fst_frameNo]
      cases hef : c.endFrame <;> simp [List.countP_cons, hef] <;> omega

/-- C7: at every point of a replay (every trace processed by `mainLoop`,
which resets `frameNo` to 0 before the race; intermediate points are
replays of prefixes), `frameNo` equals the number of dispatched calls
carrying `END_FRAME` — the handlers invoke `frameComplete` exactly on
those; and an empty trace completes with `frameNo = 0`, no events (hence no
snapshots) and no exit. -/
theorem frameNo_counts_endFrames {Img : Type} (cfg : RCfg) (env : Env Img)
    (s : GState) (tr : List Call) :
    ((mainLoop cfg env s tr).1).frameNo =
      List.countP (fun c => c.endFrame)
        (dispatchedCalls (mainLoop cfg env s tr).2.1) ∧
    mainLoop cfg env s [] = ({ callNo := s.callNo, frameNo := 0 }, [], none) := by
  refine ⟨?_, rfl⟩
  have h := replayList_frameNo cfg env tr { callNo := s.callNo, frameNo := 0 }
  simpa [mainLoop] using h

/-- C8 counterexample: `-pfoo` is not a documented option, yet the
`arg[1] == 'p'` catch-all of `main` silently accepts it as a generic
profiling flag instead of printing an error and exiting 1. -/
theorem unknown_profiling_opt_accepted :
    "-pfoo" ∉ documentedOptions ∧
    parseLoop defaultMainCfg ["-pfoo"] =
      ParseOutcome.run
        { defaultMainCfg with debug := false, profiling := true, verbosity := -1 }
        [] := by
  exact ⟨by decide, rfl⟩

/-- C8 (amended): every option argument (first character `-`) that is not
among the documented options and does not begin with `-p` (second
character `p`) makes `main` print an error and exit with status 1; options
beginning with `-p` other than the documented ones are instead silently
absorbed by the profiling branch. -/
theorem unknown_opt_exits_error (cfg : MainCfg) (arg : String)
    (rest : List String) (h0 : arg.data.head? = some '-')
    (hnd : arg ∉ documentedOptions) (hnp : arg.data.get? 1 ≠ some 'p') :
    parseLoop cfg (arg :: rest) = ParseOutcome.exitErr arg := by
  simp only [documentedOptions, List.mem_cons, List.mem_singleton, not_or] at hnd
  obtain ⟨h1, h2, h3, h4, h5, h6, h7, h8, h9, h10, h11, h12, h13, h14, h15, h16, -⟩ := hnd
  rw [parseLoop.eq_def]
  dsimp only
  rw [if_pos h0, if_neg h15, if_neg h1, if_neg h5, if_neg h6, if_neg h13, if_neg h7,
    if_neg h8, if_neg h9, if_neg h16, if_neg h10, if_neg h11, if_neg h12, if_neg h14,
    if_neg hnp]

theorem unknown_opt_exits_error_witness :
    parseLoop defaultMainCfg ["-x"] = ParseOutcome.exitErr "-x" :=
  unknown_opt_exits_error defaultMainCfg "-x" [] (by decide) (by decide) (by decide)

theorem applyOptC_dump (cfg : MainCfg) (v : Option String) :
    (applyOptC cfg v).dumpStateCallNo = cfg.dumpStateCallNo := by
  simp only [applyOptC]
  split <;> rfl

theorem applyOptCap_dump (cfg : MainCfg) (v : Option String) :
    (applyOptCap cfg v).dumpStateCallNo = cfg.dumpStateCallNo := by
  simp only [applyOptCap]
  split <;> rfl

theorem applyOptS_dump (cfg : MainCfg) (v : Option String) :
    (applyOptS cfg v).dumpStateCallNo = cfg.dumpStateCallNo := by
  simp only [applyOptS]
  split <;> split <;> rfl

theorem applyOptCapS_dump (cfg : MainCfg) (v : Option String) :
    (applyOptCapS cfg v).dumpStateCallNo = cfg.dumpStateCallNo := by
  simp only [applyOptCapS]
  split <;> rfl

theorem applyOptP_dump (cfg : MainCfg) (arg : String) :
    (applyOptP cfg arg).dumpStateCallNo = cfg.dumpStateCallNo := by
  simp only [applyOptP]
  split
  · rfl
  · split
    · rfl
    · split <;> rfl

theorem parseLoop_dump_aux : ∀ (n : Nat) (args : List String),
    args.length ≤ n → ∀ (cfg0 cfg1 : MainCfg) (ts : List String),
    "-D" ∉ args → parseLoop cfg0 args = ParseOutcome.run cfg1 ts →
    cfg1.dumpStateCallNo = cfg0.dumpStateCallNo := by
  intro n
  induction n with
  | zero =>
    intro args hlen cfg0 cfg1 ts hD h
    have hnil : args = [] := List.eq_nil_of_length_eq_zero (Nat.le_zero.mp hlen)
    subst hnil
    simp only [parseLoop, ParseOutcome.run.injEq] at h
    rw [← h.1]
  | succ n ihn =>
    intro args hlen cfg0 cfg1 ts hD h
    cases args with
    | nil =>
      simp only [parseLoop, ParseOutcome.run.injEq] at h
      rw [← h.1]
    | cons arg rest =>
      have hrest : rest.length ≤ n := by
        simpa using Nat.lt_succ_iff.mp (lt_of_lt_of_le (by simp) hlen)
      have hDa : arg ≠ "-D" := fun he => hD (by rw [he]; exact List.mem_cons_self _ _)
      have hDr : "-D" ∉ rest := fun he => hD (List.mem_cons_of_mem _ he)
      rw [parseLoop.eq_def] at h
      dsimp only at h
      by_cases h0 : arg.data.head? = some '-'
      · rw [if_pos h0] at h
        by_cases hA : arg = "--"
        · rw [if_pos hA] at h
          injection h with hc _
          rw [← hc]
        · rw [if_neg hA] at h
          by_cases hB : arg = "-b"
          · rw [if_pos hB] at h
            have hh := ihn rest hrest _ _ _ hDr h
            exact hh
          · rw [if_neg hB] at h
            by_cases hC : arg = "-c"
            · rw [if_pos hC] at h
              cases rest with
              | nil =>
                injection h with hc _
                rw [← hc, applyOptC_dump]
              | cons v rest2 =>
                have hDr2 : "-D" ∉ rest2 := fun he => hDr (List.mem_cons_of_mem _ he)
                have hlen2 : rest2.length ≤ n := le_trans (by simp) hrest
                rw [ihn rest2 hlen2 _ _ _ hDr2 h, applyOptC_dump]
            · rw [if_neg hC] at h
              by_cases hCc : arg = "-C"
              · rw [if_pos hCc] at h
                cases rest with
                | nil =>
                  injection h with hc _
                  rw [← hc, applyOptCap_dump]
                | cons v rest2 =>
                  have hDr2 : "-D" ∉ rest2 := fun he => hDr (List.mem_cons_of_mem _ he)
                  have hlen2 : rest2.length ≤ n := le_trans (by simp) hrest
                  rw [ihn rest2 hlen2 _ _ _ hDr2 h, applyOptCap_dump]
              · rw [if_neg hCc] at h
                rw [if_neg hDa] at h
                by_cases hE : arg = "-core"
                · rw [if_pos hE] at h
                  have hh := ihn rest hrest _ _ _ hDr h
                  exact hh
                · rw [if_neg hE] at h
                  by_cases hF : arg = "-db"
                  · rw [if_pos hF] at h
                    have hh := ihn rest hrest _ _ _ hDr h
                    exact hh
                  · rw [if_neg hF] at h
                    by_cases hG : arg = "-sb"
                    · rw [if_pos hG] at h
                      have hh := ihn rest hrest _ _ _ hDr h
                      exact hh
                    · rw [if_neg hG] at h
                      by_cases hH : arg = "--help"
                      · rw [if_pos hH] at h
                        cases h
                      · rw [if_neg hH] at h
                        by_cases hs : arg = "-s"
                        · rw [if_pos hs] at h
                          cases rest with
                          | nil =>
                            injection h with hc _
                            rw [← hc, applyOptS_dump]
                          | cons v rest2 =>
                            have hDr2 : "-D" ∉ rest2 :=
                              fun he => hDr (List.mem_cons_of_mem _ he)
                            have hlen2 : rest2.length ≤ n := le_trans (by simp) hrest
                            rw [ihn rest2 hlen2 _ _ _ hDr2 h, applyOptS_dump]
                        · rw [if_neg hs] at h
                          by_cases hS : arg = "-S"
                          · rw [if_pos hS] at h
                            cases rest with
                            | nil =>
                              injection h with hc _
                              rw [← hc, applyOptCapS_dump]
                            | cons v rest2 =>
                              have hDr2 : "-D" ∉ rest2 :=
                                fun he => hDr (List.mem_cons_of_mem _ he)
                              have hlen2 : rest2.length ≤ n := le_trans (by simp) hrest
                              rw [ihn rest2 hlen2 _ _ _ hDr2 h, applyOptCapS_dump]
                          · rw [if_neg hS] at h
                            by_cases hV : arg = "-v"
                            · rw [if_pos hV] at h
                              have hh := ihn rest hrest _ _ _ hDr h
                              exact hh
                            · rw [if_neg hV] at h
                              by_cases hW : arg = "-w"
                              · rw [if_pos hW] at h
                                have hh := ihn rest hrest _ _ _ hDr h
                                exact hh
                              · rw [if_neg hW] at h
                                by_cases hP : arg.data.get? 1 = some 'p'
                                · rw [if_pos hP] at h
                                  rw [ihn rest hrest _ _ _ hDr h, applyOptP_dump]
                                · rw [if_neg hP] at h
                                  cases h
      · rw [if_neg h0] at h
        injection h with hc _
        rw [← hc]

theorem parseLoop_dump_preserved (cfg0 cfg1 : MainCfg) (args ts : List String)
    (hD : "-D" ∉ args) (h : parseLoop cfg0 args = ParseOutcome.run cfg1 ts) :
    cfg1.dumpStateCallNo = cfg0.dumpStateCallNo :=
  parseLoop_dump_aux args.length args (le_refl _) cfg0 cfg1 ts hD h

/-- Quiet replay configuration with the default (`~0`) dump threshold but a
succeeding external `dumpState`. -/
def cfgC9 : RCfg :=
  { snapshotFreq := fun _ => false
    compareFreq := fun _ => false
    comparePfx := none
    snapshotPfx := none
    verbosity := 0
    dumpStateCallNo := dumpStateCallNoDefault
    dumpStateOk := true }

/-- A call sitting exactly at the unsigned maximum `~0 = 2^32 − 1`. -/
def callC9 : Call :=
  { no := 2 ^ 32 - 1, thread_id := 0, swapRendertarget := false
    endFrame := false }

/-- C9 counterexample: the default `dumpStateCallNo = ~0` is not "never" —
`call->no >= dumpStateCallNo` holds for a call with index `2^32 − 1`, so
(with `dumpState` succeeding) the gate fires and the process exits 0
without `-D` ever having been given. -/
theorem default_dump_gate_cex :
    cfgC9.dumpStateCallNo = dumpStateCallNoDefault ∧
    (retraceCall cfgC9 envTrivial { callNo := 0, frameNo := 0 } callC9).2.2
      = some 0 :=
  ⟨rfl, by rw [retraceCall_exit]; simp [cfgC9, callC9, dumpStateCallNoDefault]⟩

/-- C9 (amended): without `-D`, `dumpStateCallNo` keeps its initialiser
`~0 = 2^32 − 1` (the option scanner leaves the field untouched when `-D`
does not occur among the arguments), and with that threshold the gate
cannot fire for any call whose index is below `2^32 − 1` — i.e. for every
index a 32-bit trace position can reach except the maximum itself. -/
theorem default_dump_gate (Img : Type) (cfg : RCfg) (env : Env Img)
    (s : GState) (c : Call)
    (hthr : cfg.dumpStateCallNo = dumpStateCallNoDefault)
    (hno : c.no < 2 ^ 32 - 1) :
    (retraceCall cfg env s c).2.2 = none ∧
    defaultMainCfg.dumpStateCallNo = dumpStateCallNoDefault ∧
    (∀ (cfg0 cfg1 : MainCfg) (args ts : List String),
      "-D" ∉ args → parseLoop cfg0 args = ParseOutcome.run cfg1 ts →
      cfg1.dumpStateCallNo = cfg0.dumpStateCallNo) := by
  refine ⟨?_, rfl, fun cfg0 cfg1 args ts hD h =>
    parseLoop_dump_preserved cfg0 cfg1 args ts hD h⟩
  rw [retraceCall_exit]
  have hlt : ¬(cfg.dumpStateCallNo ≤ c.no) := by
    rw [hthr]
    unfold dumpStateCallNoDefault
    omega
  simp [hlt]

theorem default_dump_gate_witness :
    (retraceCall cfgC9 envTrivial { callNo := 0, frameNo := 0 } demoCall).2.2
      = none ∧
    defaultMainCfg.dumpStateCallNo = dumpStateCallNoDefault ∧
    (∀ (cfg0 cfg1 : MainCfg) (args ts : List String),
      "-D" ∉ args → parseLoop cfg0 args = ParseOutcome.run cfg1 ts →
      cfg1.dumpStateCallNo = cfg0.dumpStateCallNo) :=
  default_dump_gate Unit cfgC9 envTrivial { callNo := 0, frameNo := 0 }
    demoCall rfl (by decide)

theorem replayList_callNo_last {Img : Type} (cfg : RCfg) (env : Env Img) :
    ∀ (tr : List Call) (s : GState) (h1 : tr ≠ []),
    (replayList cfg env s tr).2.2 = none →
    ((replayList cfg env s tr).1).callNo = (tr.getLast h1).no := by
  intro tr
  induction tr with
  | nil => intro s h1 _; exact absurd rfl h1
  | cons c rest ih =>
    intro s h1 hex
    cases hr : (retraceCall cfg env s c).2.2 with
    | some code =>
      exfalso
      simp [replayList, hr] at hex
    | none =>
      cases rest with
      | nil =>
        have h2 : (replayList cfg env s [c]).1 = (retraceCall cfg env s c).1 := by
          simp [replayList, hr]
        rw [h2, retraceCall_fst_callNo]
        rfl
      | cons d rest2 =>
        have h2 : (replayList cfg env s (c :: d :: rest2)).1 =
            (replayList cfg env (retraceCall cfg env s c).1 (d :: rest2)).1 := by
          simp [replayList, hr]
        have h3 : (replayList cfg env s (c :: d :: rest2)).2.2 =
            (replayList cfg env (retraceCall cfg env s c).1 (d :: rest2)).2.2 := by
          simp [replayList, hr]
        rw [h2, ih (retraceCall cfg env s c).1 (by simp) (by rw [← h3]; exact hex)]
        exact congrArg Call.no (List.getLast_cons (by simp : d :: rest2 ≠ [])).symm

/-- Quiet replay configuration: no snapshots, no compare, dump never
fires. -/
def cfgQuiet : RCfg :=
  { snapshotFreq := fun _ => false
    compareFreq := fun _ => false
    comparePfx := none
    snapshotPfx := none
    verbosity := 0
    dumpStateCallNo := dumpStateCallNoDefault
    dumpStateOk := false }

/-- C10: replaying several trace files in one invocation, `mainLoop`
resets only `frameNo` to 0 at the start of each file while `callNo` is
never reset: after a file that replayed to completion, `callNo` holds the
index of that file's last call, and the next file starts from exactly that
`callNo` with `frameNo = 0` — so until the next file's first call is
dispatched, `callNo` still holds the previous file's last index. -/
theorem mainLoop_callNo_carryover {Img : Type} (cfg : RCfg) (env : Env Img)
    (s : GState) (tr1 tr2 : List Call) (h1 : tr1 ≠ [])
    (hex : (mainLoop cfg env s tr1).2.2 = none) :
    ((mainLoop cfg env s tr1).1).callNo = (tr1.getLast h1).no ∧
    mainLoop cfg env (mainLoop cfg env s tr1).1 tr2 =
      replayList cfg env
        { callNo := ((mainLoop cfg env s tr1).1).callNo, frameNo := 0 } tr2 :=
  ⟨replayList_callNo_last cfg env tr1 _ h1 hex, rfl⟩

theorem mainLoop_callNo_carryover_witness :
    ((mainLoop cfgQuiet envTrivial { callNo := 0, frameNo := 0 } demoTrace).1).callNo
      = (demoTrace.getLast (by decide)).no ∧
    mainLoop cfgQuiet envTrivial
        (mainLoop cfgQuiet envTrivial { callNo := 0, frameNo := 0 } demoTrace).1
        [] =
      replayList cfgQuiet envTrivial
        { callNo :=
            ((mainLoop cfgQuiet envTrivial { callNo := 0, frameNo := 0 }
              demoTrace).1).callNo
          frameNo := 0 } [] :=
  mainLoop_callNo_carryover cfgQuiet envTrivial { callNo := 0, frameNo := 0 }
    demoTrace [] (by decide) (by decide)
